import Mathlib

/-!
Verification of the gounion analyzer against its specification.

The development shallowly embeds the two analysis phases of the repository:

* `union.go` — phase 1: discovering union ("sealed") interfaces via an
  unexported zero-parameter zero-result marker method, building the sorted
  member list, and exporting it as a `UnionInterface` fact;
* `exhaustive.go` — phase 2: checking type switches on union interfaces for
  exhaustiveness, classifying default cases, and building the diagnostic
  message.

External collaborators (the Go type checker `go/types`, the AST supplied by
`go/ast`, and the analysis fact store) are modelled as oracle fields of a
`Pass` record, mirroring `*analysis.Pass`: `typeOf` models
`pass.TypesInfo.Types`, `implementsError` models `types.Implements(_, error)`,
`facts` models `pass.ImportObjectFact`, `scope` models `pass.Pkg.Scope()` and
`methodSetHas` models `types.NewMethodSet(t).Lookup(pkg, name) != nil`.
-/

/-- Identity of a `types.TypeName` object: the short name of its declaring
package (`Obj().Pkg().Name()`, `none` for universe-scope objects) and its own
name (`Obj().Name()`). -/
structure TypeObj where
  pkg : Option String
  name : String
deriving DecidableEq, Repr

/-- A resolved `types.Type`, as far as the analyzer inspects it:
`named obj isInterface` is a `*types.Named` whose underlying type is an
interface iff `isInterface`; `pointer elem` is a `*types.Pointer`; every
other shape of type is collapsed to `basic s`, carrying the string
`types.TypeString` would print for it. -/
inductive GoType where
  | named (obj : TypeObj) (isInterface : Bool)
  | pointer (elem : GoType)
  | basic (s : String)
deriving DecidableEq, Repr

/-- A Go expression, as far as the analyzer inspects it: identifiers,
call expressions, type assertions (`x.(type)`), and everything else as an
opaque node tagged by a number. -/
inductive GoExpr where
  | ident (name : String)
  | call (fn : GoExpr) (args : List GoExpr)
  | typeAssert (x : GoExpr)
  | otherExpr (tag : Nat)

/-- A Go statement, as far as the analyzer inspects it: expression
statements, return statements, assignment statements, and everything else
as an opaque node tagged by a number. -/
inductive GoStmt where
  | exprStmt (x : GoExpr)
  | returnStmt (results : List GoExpr)
  | assignStmt (lhs : List GoExpr) (rhs : List GoExpr)
  | otherStmt (tag : Nat)

/-- An `*ast.CaseClause` of a type switch. `list = none` models a nil
`List` field, i.e. the default case; `some es` lists the case's type
expressions. -/
structure CaseClause where
  list : Option (List GoExpr)
  body : List GoStmt

/-- An `*ast.TypeSwitchStmt`: its `Assign` statement and its body, whose
elements are always case clauses (the Go grammar guarantees every element of
`Body.List` is an `*ast.CaseClause`; the source's defensive type-assertion
skips are therefore not observable). -/
structure TypeSwitchStmt where
  assign : GoStmt
  body : List CaseClause

/-- One method of an interface as `go/types` presents it: its name and the
lengths of `Signature.Params()` and `Signature.Results()` (the method type of
an interface method is always a `*types.Signature`, so the source's
defensive cast never fails). -/
structure GoMethod where
  name : String
  params : Nat
  results : Nat
deriving DecidableEq, Repr

/-- The analysis fact from `facts.go`: marker method name and member list. -/
structure UnionInterface where
  MarkerMethod : String
  Members : List String
deriving DecidableEq, Repr

/-- An object in the package scope: either a `*types.TypeName` carrying its
declared type, or any other kind of object (var, func, const), which the
member scan skips. -/
inductive ScopeEntry where
  | typeName (t : GoType)
  | otherObj
deriving DecidableEq

/-- Oracle record modelling `*analysis.Pass` together with the external
type-resolution collaborators. `scope` lists the package-scope objects in
the order `Scope().Names()` yields them (sorted, distinct names). -/
structure Pass where
  typeOf : GoExpr → Option GoType
  implementsError : GoType → Bool
  facts : TypeObj → Option UnionInterface
  scope : List (String × ScopeEntry)
  methodSetHas : GoType → String → Bool

/-! ### Go string ordering

`sort.Strings` sorts ascending by Go's built-in string comparison, which is
byte-wise lexicographic; on UTF-8 encoded text byte order coincides with
code-point order, modelled here on `String.data`. The sort itself is
modelled by insertion sort, which for a total preorder produces the same
list as any sorting algorithm (equal strings are indistinguishable). -/

/-- Byte-wise (code-point-wise) lexicographic `≤` on character lists. -/
def goStrLeChars : List Char → List Char → Bool
  | [], _ => true
  | _ :: _, [] => false
  | a :: as, b :: bs =>
    decide (a.val.toNat < b.val.toNat) ||
      (decide (a.val.toNat = b.val.toNat) && goStrLeChars as bs)

/-- Go's `<=` on strings. -/
def goStrLe (a b : String) : Prop := goStrLeChars a.data b.data = true

instance : DecidableRel goStrLe := fun a b => by
  unfold goStrLe; infer_instance

instance : IsTotal String goStrLe := by
  constructor
  intro x y
  show goStrLeChars x.data y.data = true ∨ goStrLeChars y.data x.data = true
  generalize x.data = as
  generalize y.data = bs
  induction as generalizing bs with
  | nil => left; rfl
  | cons a as ih =>
    cases bs with
    | nil => right; rfl
    | cons b bs =>
      rcases Nat.lt_trichotomy a.val.toNat b.val.toNat with h | h | h
      · left; simp [goStrLeChars, h]
      · rcases ih bs with h2 | h2
        · left; simp [goStrLeChars, h, h2]
        · right; simp [goStrLeChars, h.symm, h2]
      · right; simp [goStrLeChars, h]

instance : IsTrans String goStrLe := by
  constructor
  intro x y z
  show goStrLeChars x.data y.data = true → goStrLeChars y.data z.data = true →
    goStrLeChars x.data z.data = true
  generalize x.data = as
  generalize y.data = bs
  generalize z.data = cs
  intro h1 h2
  induction as generalizing bs cs with
  | nil => rfl
  | cons a as ih =>
    cases bs with
    | nil => simp [goStrLeChars] at h1
    | cons b bs =>
      cases cs with
      | nil => simp [goStrLeChars] at h2
      | cons c cs =>
        simp only [goStrLeChars, Bool.or_eq_true, Bool.and_eq_true,
          decide_eq_true_eq] at h1 h2 ⊢
        rcases h1 with h1 | ⟨h1e, h1r⟩
        · rcases h2 with h2 | ⟨h2e, _⟩
          · exact Or.inl (Nat.lt_trans h1 h2)
          · exact Or.inl (h2e ▸ h1)
        · rcases h2 with h2 | ⟨h2e, h2r⟩
          · exact Or.inl (h1e ▸ h2)
          · exact Or.inr ⟨h1e.trans h2e, ih bs cs h1r h2r⟩

/-- Model of `sort.Strings(members)`: sort ascending by Go string comparison. -/
def sortStrings (l : List String) : List String :=
  List.insertionSort goStrLe l

/-! ### union.go -/

/-- Whether a name is exported in the sense of `types.Func.Exported`
(first character is upper case; the empty string is unexported). -/
def isExportedName (s : String) : Bool :=
  match s.data with
  | [] => false
  | c :: _ => c.isUpper

/-- Model of `findMarkerMethod` from union.go: scan the interface's methods in order;
skip exported methods, methods with parameters and methods with results;
return the name of the first remaining method, or `""` if none qualifies. -/
def findMarkerMethod : List GoMethod → String
  | [] => ""
  | m :: rest =>
    if isExportedName m.name then findMarkerMethod rest
    else if m.params ≠ 0 then findMarkerMethod rest
    else if m.results ≠ 0 then findMarkerMethod rest
    else m.name

/-- The discriminator-method criterion from the spec: unexported name, zero
parameters, zero results. -/
def isMarkerMethod (m : GoMethod) : Bool :=
  !isExportedName m.name && m.params == 0 && m.results == 0

/-- Unique Id of a method as `go/types` computes it: the bare name for an
exported method, the package-path-qualified name for an unexported one. -/
def methodId (pkgPath : String) (m : GoMethod) : String :=
  if isExportedName m.name then m.name else pkgPath ++ "." ++ m.name

/-- The Id ordering on methods of an interface declared in package
`pkgPath`. -/
def methodIdLe (pkgPath : String) (m1 m2 : GoMethod) : Prop :=
  goStrLe (methodId pkgPath m1) (methodId pkgPath m2)

instance (pkgPath : String) : DecidableRel (methodIdLe pkgPath) :=
  fun m1 m2 => by unfold methodIdLe; infer_instance

/-- Model of the method presentation of `types.Interface`: `iface.Method i`
yields the interface's computed method set — declared and embedded methods
alike — sorted by unique Id, not in declaration order (`go/types` sorts the
method set by `Id`; Ids are distinct within one interface, so the sorted
sequence is unique). -/
def typesMethodOrder (pkgPath : String) (methodSet : List GoMethod) :
    List GoMethod :=
  List.insertionSort (methodIdLe pkgPath) methodSet

/-- One interface type declaration reaching the marker scan in
`exportUnionFacts` (i.e. a `TypeSpec` whose type is an interface and whose
name resolves to a `*types.TypeName` with interface underlying): the
object's identity and its method list in the order `iface.Method i` yields
them. -/
structure InterfaceDecl where
  obj : TypeObj
  methods : List GoMethod

/-- The registration loop of `exportUnionFacts`: an interface is recorded as
a union interface exactly when `findMarkerMethod` returns a non-empty name,
and the recorded discriminator is that name. -/
def scanUnionInterfaces (decls : List InterfaceDecl) : List (TypeObj × String) :=
  decls.foldl
    (fun acc d =>
      let markerMethod := findMarkerMethod d.methods
      if markerMethod = "" then acc else acc ++ [(d.obj, markerMethod)])
    []

/-- Model of `hasMarkerMethod` from union.go: method-set lookup, supplied by the
`go/types` oracle. -/
def hasMarkerMethod (pass : Pass) (typ : GoType) (markerMethod : String) : Bool :=
  pass.methodSetHas typ markerMethod

/-- Whether a scope object's type has an interface underlying type
(`typeName.Type().Underlying().(*types.Interface)` succeeds). -/
def isInterfaceUnderlying : GoType → Bool
  | .named _ isInterface => isInterface
  | _ => false

/-- Model of `findUnionMembers` from union.go: walk the package scope in name order;
skip non-type objects and interface types; record the plain name when the
bare type has the marker method, else the `*`-qualified name when the
pointer type has it, else nothing; finally sort. -/
def findUnionMembers (pass : Pass) (markerMethod : String) : List String :=
  let members := pass.scope.foldl
    (fun members entry =>
      match entry with
      | (name, ScopeEntry.typeName t) =>
        if isInterfaceUnderlying t then members
        else if hasMarkerMethod pass t markerMethod then members ++ [name]
        else if hasMarkerMethod pass (GoType.pointer t) markerMethod then
          members ++ ["*" ++ name]
        else members
      | (_, ScopeEntry.otherObj) => members)
    []
  sortStrings members

/-- What one scope entry contributes to the member list, before sorting. -/
def recordEntry (pass : Pass) (markerMethod : String) :
    String × ScopeEntry → Option String
  | (name, ScopeEntry.typeName t) =>
    if isInterfaceUnderlying t then none
    else if hasMarkerMethod pass t markerMethod then some name
    else if hasMarkerMethod pass (GoType.pointer t) markerMethod then
      some ("*" ++ name)
    else none
  | (_, ScopeEntry.otherObj) => none


/-! ### exhaustive.go -/

/-- Model of `extractTypeAssertExpr` from exhaustive.go: the `Assign` field of a type
switch is either an expression statement holding `x.(type)` or an assignment
statement whose first right-hand side is `x.(type)`. -/
def extractTypeAssertExpr : GoStmt → Option GoExpr
  | GoStmt.exprStmt x =>
    match x with
    | GoExpr.typeAssert i => some (GoExpr.typeAssert i)
    | _ => none
  | GoStmt.assignStmt _ rhs =>
    match rhs with
    | r :: _ =>
      match r with
      | GoExpr.typeAssert i => some (GoExpr.typeAssert i)
      | _ => none
    | [] => none
  | _ => none

/-- Model of `getSwitchType` from exhaustive.go: resolve the static type of the
scrutinized expression `X` of the extracted type assertion. -/
def getSwitchType (pass : Pass) (st : TypeSwitchStmt) : Option GoType :=
  match extractTypeAssertExpr st.assign with
  | some (GoExpr.typeAssert x) => pass.typeOf x
  | _ => none

/-- Model of `extractNamedInterface` from exhaustive.go: the type must be a named
type whose underlying type is an interface; its object identity is
returned. -/
def extractNamedInterface : GoType → Option TypeObj
  | GoType.named obj isInterface => if isInterface then some obj else none
  | _ => none

/-- Model of `getDefaultCaseClause` from exhaustive.go: the first clause whose `List`
field is nil. -/
def getDefaultCaseClause (st : TypeSwitchStmt) : Option CaseClause :=
  st.body.find? (fun clause => clause.list.isNone)

/-- Model of `hasDefaultCase` from exhaustive.go. -/
def hasDefaultCase (st : TypeSwitchStmt) : Bool :=
  (getDefaultCaseClause st).isSome

/-- Model of `getDefaultCaseLastStmt` from exhaustive.go: the last statement of the
default case's body, `none` when there is no default case or its body is
empty. -/
def getDefaultCaseLastStmt (st : TypeSwitchStmt) : Option GoStmt :=
  match getDefaultCaseClause st with
  | none => none
  | some cc => cc.body.getLast?

/-- Model of `defaultCaseOnlyPanics` from exhaustive.go: the last statement of the
default case is an expression statement calling the identifier `panic`. -/
def defaultCaseOnlyPanics (st : TypeSwitchStmt) : Bool :=
  match getDefaultCaseLastStmt st with
  | none => false
  | some s =>
    match s with
    | GoStmt.exprStmt x =>
      match x with
      | GoExpr.call fn _ =>
        match fn with
        | GoExpr.ident name => name == "panic"
        | _ => false
      | _ => false
    | _ => false

/-- The nil-literal test inside `defaultCaseOnlyReturnsError`: the result
expression is the identifier `nil`. -/
def isNilLiteral : GoExpr → Bool
  | GoExpr.ident name => name == "nil"
  | _ => false

/-- The per-result test inside the loop of `defaultCaseOnlyReturnsError`:
skip nil literals; skip results whose type is unresolved; otherwise test
whether the result type or its pointer form implements `error`. -/
def resultSignalsError (pass : Pass) (result : GoExpr) : Bool :=
  if isNilLiteral result then false
  else
    match pass.typeOf result with
    | none => false
    | some t => pass.implementsError t || pass.implementsError (GoType.pointer t)

/-- Model of `defaultCaseOnlyReturnsError` from exhaustive.go: the last statement of
the default case is a return statement one of whose results signals an
error. (The lookup of the universe `error` interface never fails, so its
defensive nil branch is not modelled.) -/
def defaultCaseOnlyReturnsError (pass : Pass) (st : TypeSwitchStmt) : Bool :=
  match getDefaultCaseLastStmt st with
  | none => false
  | some s =>
    match s with
    | GoStmt.returnStmt results => results.any (resultSignalsError pass)
    | _ => false

/-- Model of `types.TypeString(typ, nil)`: the fallback formatting of
`formatTypeForComparison`, printing named types with their package
qualifier. -/
def typeString : GoType → String
  | GoType.named obj _ =>
    (match obj.pkg with
     | some p => p ++ "."
     | none => "") ++ obj.name
  | GoType.pointer elem => "*" ++ typeString elem
  | GoType.basic s => s

/-- Model of `formatTypeForComparison` from exhaustive.go: pointers to named types
print as `*` plus the bare object name, named types print as the bare
object name — both without any package qualifier — and anything else falls
back to `types.TypeString`. -/
def formatTypeForComparison : GoType → String
  | GoType.pointer (GoType.named obj _) => "*" ++ obj.name
  | GoType.named obj _ => obj.name
  | t => typeString t

/-- Model of `collectCaseTypes` from exhaustive.go: for every non-default case
clause, format each case expression's resolved type; expressions whose type
is unresolved are dropped. -/
def collectCaseTypes (pass : Pass) (st : TypeSwitchStmt) : List String :=
  st.body.foldl
    (fun handled clause =>
      match clause.list with
      | none => handled
      | some exprs =>
        exprs.foldl
          (fun handled e =>
            match pass.typeOf e with
            | none => handled
            | some t => handled ++ [formatTypeForComparison t])
          handled)
    []

/-- What one case clause contributes to the handled set. -/
def clauseCaseTypes (pass : Pass) (clause : CaseClause) : List String :=
  match clause.list with
  | none => []
  | some exprs =>
    exprs.filterMap (fun e => (pass.typeOf e).map formatTypeForComparison)

/-- The module qualification applied by `findMissingTypes`:
`unionPkg.Name() + "." + member` when the union package is known. -/
def qualifyMember (unionPkg : Option String) (member : String) : String :=
  match unionPkg with
  | some p => p ++ "." ++ member
  | none => member

/-- Model of `findMissingTypes` from exhaustive.go: walk the member list in order,
keeping each member absent from the handled set, qualified with the union
package's short name. -/
def findMissingTypes (members handled : List String) (unionPkg : Option String) :
    List String :=
  members.foldl
    (fun missing member =>
      if handled.contains member then missing
      else missing ++ [qualifyMember unionPkg member])
    []

/-- The diagnostic message format string of `checkTypeSwitches`:
`"missing cases in type switch on %s: %s"` applied to the interface name
and the comma-joined missing list. -/
def missingCasesMessage (interfaceName : String) (missing : List String) : String :=
  "missing cases in type switch on " ++ interfaceName ++ ": "
    ++ String.intercalate ", " missing

/-- The per-node body of `checkTypeSwitches` from exhaustive.go, for one
type switch statement: resolve the switch type, require a named interface
carrying a union fact, skip when a default case is present that neither
panics nor returns an error, and otherwise report the missing members if
any. `none` models "no diagnostic"; `some msg` models `pass.Reportf` with
message `msg` at the switch position. -/
def processTypeSwitch (pass : Pass) (st : TypeSwitchStmt) : Option String :=
  match getSwitchType pass st with
  | none => none
  | some switchType =>
    match extractNamedInterface switchType with
    | none => none
    | some obj =>
      match pass.facts obj with
      | none => none
      | some unionFact =>
        if hasDefaultCase st && !defaultCaseOnlyPanics st
            && !defaultCaseOnlyReturnsError pass st then
          none
        else
          let handledTypes := collectCaseTypes pass st
          let missing := findMissingTypes unionFact.Members handledTypes obj.pkg
          if missing.length > 0 then
            some (missingCasesMessage obj.name missing)
          else
            none

/-! ### Concrete instances used by the closed witnesses -/

/-- The `Circle` concrete type of the `union` fixture package. -/
def circleTy : GoType := GoType.named ⟨some "union", "Circle"⟩ false

/-- A pass for a one-type module in which only `*Circle` implements the
`isShape` discriminator. -/
def scopePass : Pass :=
  { typeOf := fun _ => none
    implementsError := fun _ => false
    facts := fun _ => none
    scope := [("Circle", ScopeEntry.typeName circleTy)]
    methodSetHas := fun t m =>
      m == "isShape" && t == GoType.pointer circleTy }

/-- The `Result` contract object of the `union` fixture package. -/
def resultObj : TypeObj := ⟨some "union", "Result"⟩

/-- The `Result` interface type. -/
def resultTy : GoType := GoType.named resultObj true

/-- The `Success` concrete type of the `union` fixture package. -/
def successTy : GoType := GoType.named ⟨some "union", "Success"⟩ false

/-- The variant-set fact exported for `Result` (as in the fixture's
expectation `Result:&{isResult [*Error *Success]}`). -/
def resultFact : UnionInterface := ⟨"isResult", ["*Error", "*Success"]⟩

/-- A pass for the fixture's `Result` type switches: `r` has static type
`Result`, the case expression (tag 0) resolves to `*Success`, and the fact
store holds `resultFact` for `Result`. -/
def resultPass : Pass :=
  { typeOf := fun e =>
      match e with
      | GoExpr.ident "r" => some resultTy
      | GoExpr.otherExpr 0 => some (GoType.pointer successTy)
      | _ => none
    implementsError := fun t => t == GoType.named ⟨none, "error"⟩ true
    facts := fun o => if o = resultObj then some resultFact else none
    scope := []
    methodSetHas := fun _ _ => false }

/-- Model of `switch v := r.(type) { case *Success: }` — only `*Success` handled, no
default arm. -/
def switchNoDefault : TypeSwitchStmt :=
  { assign := GoStmt.assignStmt [GoExpr.ident "v"]
      [GoExpr.typeAssert (GoExpr.ident "r")]
    body := [⟨some [GoExpr.otherExpr 0], []⟩] }

/-- The same dispatch site with a panic-only default arm. -/
def switchPanicDefault : TypeSwitchStmt :=
  { assign := GoStmt.exprStmt (GoExpr.typeAssert (GoExpr.ident "r"))
    body := [⟨some [GoExpr.otherExpr 0], []⟩,
             ⟨none, [GoStmt.exprStmt (GoExpr.call (GoExpr.ident "panic")
               [GoExpr.ident "unexpected"])]⟩] }

/-- The same dispatch site with an intentional default arm
`default: return nil`. -/
def switchNilDefault : TypeSwitchStmt :=
  { assign := GoStmt.exprStmt (GoExpr.typeAssert (GoExpr.ident "r"))
    body := [⟨some [GoExpr.otherExpr 0], []⟩,
             ⟨none, [GoStmt.returnStmt [GoExpr.ident "nil"]]⟩] }

/-- The same dispatch site with a naked-return default arm
`default: return`. -/
def switchNakedReturnDefault : TypeSwitchStmt :=
  { assign := GoStmt.exprStmt (GoExpr.typeAssert (GoExpr.ident "r"))
    body := [⟨some [GoExpr.otherExpr 0], []⟩,
             ⟨none, [GoStmt.returnStmt []]⟩] }

/-- A dispatch site whose default arm logs and then calls `panic`. -/
def switchLogThenPanicDefault : TypeSwitchStmt :=
  { assign := GoStmt.exprStmt (GoExpr.typeAssert (GoExpr.ident "r"))
    body := [⟨none, [GoStmt.otherStmt 0,
               GoStmt.exprStmt (GoExpr.call (GoExpr.ident "panic")
                 [GoExpr.ident "unexpected"])]⟩] }

/-- A dispatch site whose default arm holds only the `panic` call. -/
def switchPanicOnlyDefault : TypeSwitchStmt :=
  { assign := GoStmt.exprStmt (GoExpr.typeAssert (GoExpr.ident "r"))
    body := [⟨none, [GoStmt.exprStmt (GoExpr.call (GoExpr.ident "panic")
               [GoExpr.ident "unexpected"])]⟩] }

/-! ### Helper lemmas -/


theorem findMarkerMethod_eq_find? (ms : List GoMethod) :
    findMarkerMethod ms
    = (match ms.find? isMarkerMethod with
       | some m => m.name
       | none => "") := by
  induction ms with
  | nil => rfl
  | cons m rest ih =>
    by_cases h1 : isExportedName m.name = true
    · have hm : isMarkerMethod m = false := by simp [isMarkerMethod, h1]
      simp [findMarkerMethod, List.find?_cons, h1, hm, ih]
    · by_cases h2 : m.params = 0
      · by_cases h3 : m.results = 0
        · have hm : isMarkerMethod m = true := by
            simp [isMarkerMethod, h1, h2, h3]
          simp [findMarkerMethod, List.find?_cons, h1, h2, h3, hm]
        · have hm : isMarkerMethod m = false := by simp [isMarkerMethod, h3]
          simp [findMarkerMethod, List.find?_cons, h1, h2, h3, hm, ih]
      · have hm : isMarkerMethod m = false := by simp [isMarkerMethod, h2]
        simp [findMarkerMethod, List.find?_cons, h1, h2, hm, ih]

theorem scanUnionInterfaces_singleton (obj : TypeObj) (ms : List GoMethod) :
    scanUnionInterfaces [⟨obj, ms⟩]
    = if findMarkerMethod ms = "" then [] else [(obj, findMarkerMethod ms)] := by
  by_cases h : findMarkerMethod ms = "" <;> simp [scanUnionInterfaces, h]

theorem findUnionMembers_foldl_eq (pass : Pass) (markerMethod : String)
    (scope : List (String × ScopeEntry)) (acc : List String) :
    scope.foldl
      (fun members entry =>
        match entry with
        | (name, ScopeEntry.typeName t) =>
          if isInterfaceUnderlying t then members
          else if hasMarkerMethod pass t markerMethod then members ++ [name]
          else if hasMarkerMethod pass (GoType.pointer t) markerMethod then
            members ++ ["*" ++ name]
          else members
        | (_, ScopeEntry.otherObj) => members)
      acc
    = acc ++ scope.filterMap (recordEntry pass markerMethod) := by
  induction scope generalizing acc with
  | nil => simp
  | cons e rest ih =>
    rcases e with ⟨name, entry⟩
    cases entry with
    | typeName t =>
      by_cases h1 : isInterfaceUnderlying t = true
      · simp [ih, recordEntry, h1]
      · by_cases h2 : hasMarkerMethod pass t markerMethod = true
        · simp [ih, recordEntry, h1, h2]
        · by_cases h3 : hasMarkerMethod pass (GoType.pointer t) markerMethod = true
          · simp [ih, recordEntry, h1, h2, h3]
          · simp [ih, recordEntry, h1, h2, h3]
    | otherObj => simp [ih, recordEntry]

theorem findUnionMembers_eq (pass : Pass) (markerMethod : String) :
    findUnionMembers pass markerMethod
    = sortStrings (pass.scope.filterMap (recordEntry pass markerMethod)) := by
  unfold findUnionMembers
  rw [findUnionMembers_foldl_eq]
  rfl

theorem star_data (n : String) : ("*" ++ n).data = '*' :: n.data := by
  cases n with
  | mk d => rfl

theorem star_ne_of_no_star (n m : String) (h : '*' ∉ n.data) : n ≠ "*" ++ m := by
  intro he
  apply h
  rw [he, star_data]
  exact List.mem_cons_self _ _

theorem starPrefix_inj (n m : String) (h : "*" ++ n = "*" ++ m) : n = m := by
  have hd : '*' :: n.data = '*' :: m.data := by
    rw [← star_data, ← star_data, h]
  have hdata : n.data = m.data := by injection hd
  cases n with
  | mk d =>
    cases m with
    | mk e => exact congrArg String.mk hdata

theorem recordEntry_shape (pass : Pass) (markerMethod : String)
    (p : String × ScopeEntry) (s : String)
    (h : recordEntry pass markerMethod p = some s) :
    s = p.1 ∨ s = "*" ++ p.1 := by
  rcases p with ⟨n, entry⟩
  cases entry with
  | otherObj => simp [recordEntry] at h
  | typeName t =>
    simp only [recordEntry] at h
    split_ifs at h with h1 h2 h3
    · exact Or.inl (Option.some.inj h).symm
    · exact Or.inr (Option.some.inj h).symm

theorem filterMap_recordEntry_nodup (pass : Pass) (markerMethod : String)
    (scope : List (String × ScopeEntry))
    (hnodup : (scope.map Prod.fst).Nodup)
    (hstar : ∀ p ∈ scope, '*' ∉ p.1.data) :
    (scope.filterMap (recordEntry pass markerMethod)).Nodup := by
  induction scope with
  | nil => simp
  | cons e rest ih =>
    have hnodup' : (rest.map Prod.fst).Nodup := (List.nodup_cons.mp hnodup).2
    have hne : e.1 ∉ rest.map Prod.fst := (List.nodup_cons.mp hnodup).1
    have hstar' : ∀ p ∈ rest, '*' ∉ p.1.data := fun p hp => hstar p (List.mem_cons_of_mem _ hp)
    have hstare : '*' ∉ e.1.data := hstar e (List.mem_cons_self _ _)
    rw [List.filterMap_cons]
    cases hrec : recordEntry pass markerMethod e with
    | none => exact ih hnodup' hstar'
    | some s =>
      refine List.nodup_cons.mpr ⟨?_, ih hnodup' hstar'⟩
      intro hmem
      rcases List.mem_filterMap.mp hmem with ⟨p, hp, hps⟩
      have hshape1 := recordEntry_shape pass markerMethod e s hrec
      have hshape2 := recordEntry_shape pass markerMethod p s hps
      have hnames : e.1 ≠ p.1 := by
        intro hEq
        exact hne (hEq ▸ List.mem_map_of_mem Prod.fst hp)
      have hstarp : '*' ∉ p.1.data := hstar' p hp
      rcases hshape1 with h1 | h1 <;> rcases hshape2 with h2 | h2
      · exact hnames (h1 ▸ h2 ▸ rfl)
      · exact star_ne_of_no_star e.1 p.1 hstare (h1 ▸ h2)
      · exact star_ne_of_no_star p.1 e.1 hstarp (h2 ▸ h1)
      · exact hnames (starPrefix_inj _ _ (h1 ▸ h2))

theorem findMissingTypes_foldl (handled : List String) (unionPkg : Option String)
    (members : List String) (acc : List String) :
    members.foldl
      (fun missing member =>
        if handled.contains member then missing
        else missing ++ [qualifyMember unionPkg member])
      acc
    = acc ++ (members.filter (fun m => !handled.contains m)).map (qualifyMember unionPkg) := by
  induction members generalizing acc with
  | nil => simp
  | cons m rest ih =>
    rw [List.foldl_cons]
    by_cases h : handled.contains m = true
    · have hb : (!handled.contains m) = false := by
        simp only [h, Bool.not_true]
      rw [if_pos h, ih,
        List.filter_cons_of_neg (p := fun x => !handled.contains x) (l := rest)
          (by rw [show (fun x => !handled.contains x) m = false from hb]
              exact Bool.false_ne_true)]
    · have hb : (!handled.contains m) = true := by
        simp only [Bool.not_eq_true] at h
        simp only [h, Bool.not_false]
      rw [if_neg h, ih,
        List.filter_cons_of_pos (p := fun x => !handled.contains x) (l := rest) hb,
        List.map_cons, List.append_assoc]
      rfl

theorem findMissingTypes_eq (members handled : List String) (unionPkg : Option String) :
    findMissingTypes members handled unionPkg
    = (members.filter (fun m => !handled.contains m)).map (qualifyMember unionPkg) := by
  unfold findMissingTypes
  rw [findMissingTypes_foldl]
  rfl


theorem collectCaseTypes_inner_foldl (pass : Pass) (exprs : List GoExpr)
    (acc : List String) :
    exprs.foldl
      (fun handled e =>
        match pass.typeOf e with
        | none => handled
        | some t => handled ++ [formatTypeForComparison t])
      acc
    = acc ++ exprs.filterMap (fun e => (pass.typeOf e).map formatTypeForComparison) := by
  induction exprs generalizing acc with
  | nil => simp
  | cons e rest ih =>
    rw [List.foldl_cons, List.filterMap_cons]
    cases ht : pass.typeOf e with
    | none => simp only [ht, Option.map_none', ih]
    | some t => simp only [ht, Option.map_some', ih, List.append_assoc]; rfl

theorem collectCaseTypes_foldl (pass : Pass) (body : List CaseClause)
    (acc : List String) :
    body.foldl
      (fun handled clause =>
        match clause.list with
        | none => handled
        | some exprs =>
          exprs.foldl
            (fun handled e =>
              match pass.typeOf e with
              | none => handled
              | some t => handled ++ [formatTypeForComparison t])
            handled)
      acc
    = acc ++ (body.map (clauseCaseTypes pass)).flatten := by
  induction body generalizing acc with
  | nil => simp
  | cons clause rest ih =>
    rw [List.foldl_cons, List.map_cons, List.flatten_cons]
    cases hl : clause.list with
    | none =>
      simp only [hl]
      rw [ih]
      simp only [clauseCaseTypes, hl, List.nil_append]
    | some exprs =>
      simp only [hl]
      rw [collectCaseTypes_inner_foldl, ih]
      simp only [clauseCaseTypes, hl, List.append_assoc]

theorem collectCaseTypes_eq (pass : Pass) (st : TypeSwitchStmt) :
    collectCaseTypes pass st = (st.body.map (clauseCaseTypes pass)).flatten := by
  unfold collectCaseTypes
  rw [collectCaseTypes_foldl]
  rfl

theorem qualifyMember_inj (unionPkg : Option String) (a b : String)
    (h : qualifyMember unionPkg a = qualifyMember unionPkg b) : a = b := by
  cases unionPkg with
  | none => exact h
  | some p =>
    simp only [qualifyMember] at h
    have hd := congrArg String.data h
    rw [String.data_append, String.data_append, String.data_append,
      String.data_append] at hd
    have hdata : a.data = b.data := List.append_cancel_left hd
    cases a with
    | mk d =>
      cases b with
      | mk e => exact congrArg String.mk hdata

/-- The skip branch of `checkTypeSwitches`: a default case that neither
panics nor returns an error suppresses the whole check. -/
theorem processTypeSwitch_skip (pass : Pass) (st : TypeSwitchStmt)
    (hdef : hasDefaultCase st = true)
    (hp : defaultCaseOnlyPanics st = false)
    (he : defaultCaseOnlyReturnsError pass st = false) :
    processTypeSwitch pass st = none := by
  unfold processTypeSwitch
  cases hty : getSwitchType pass st with
  | none => rfl
  | some switchType =>
    cases hni : extractNamedInterface switchType with
    | none => simp [hni]
    | some obj =>
      cases hfact : pass.facts obj with
      | none => simp [hni, hfact]
      | some fact => simp [hni, hfact, hdef, hp, he]

/-- The checking branch of `checkTypeSwitches`: when the skip condition is
false, the result is determined by the set difference of the fact's members
and the handled set. -/
theorem processTypeSwitch_check (pass : Pass) (st : TypeSwitchStmt)
    (switchType : GoType) (obj : TypeObj) (fact : UnionInterface)
    (hty : getSwitchType pass st = some switchType)
    (hni : extractNamedInterface switchType = some obj)
    (hfact : pass.facts obj = some fact)
    (hskip : (hasDefaultCase st && !defaultCaseOnlyPanics st
       && !defaultCaseOnlyReturnsError pass st) = false) :
    processTypeSwitch pass st
    = (if (fact.Members.filter
            (fun m => !(collectCaseTypes pass st).contains m)) = [] then none
       else some (missingCasesMessage obj.name
         ((fact.Members.filter
            (fun m => !(collectCaseTypes pass st).contains m)).map
              (qualifyMember obj.pkg)))) := by
  unfold processTypeSwitch
  rw [hty]
  simp only [hni, hfact, hskip, Bool.false_eq_true, if_false]
  rw [findMissingTypes_eq]
  by_cases hdiff : (fact.Members.filter
      (fun m => !(collectCaseTypes pass st).contains m)) = []
  · rw [if_pos hdiff, hdiff, List.map_nil]
    rfl
  · rw [if_neg hdiff]
    have hlen : ((fact.Members.filter
        (fun m => !(collectCaseTypes pass st).contains m)).map
          (qualifyMember obj.pkg)).length > 0 := by
      rw [List.length_map]
      exact List.length_pos.mpr hdiff
    rw [if_pos hlen]

/-! ### Claims -/

/-- Helper for C5: over an arbitrary presented method list, registration
happens iff some method passes the marker test, and the recorded
discriminator is the first passing method of the list. The hypothesis that
method names are non-empty is guaranteed for Go identifiers. -/
theorem scanSingleton_spec (obj : TypeObj) (ms : List GoMethod)
    (hnames : ∀ m ∈ ms, m.name ≠ "") :
    (scanUnionInterfaces [⟨obj, ms⟩] ≠ [] ↔ ∃ m ∈ ms, isMarkerMethod m = true)
    ∧ ∀ m, ms.find? isMarkerMethod = some m →
        scanUnionInterfaces [⟨obj, ms⟩] = [(obj, m.name)] := by
  have hEqFind := findMarkerMethod_eq_find? ms
  constructor
  · rw [scanUnionInterfaces_singleton]
    cases hf : ms.find? isMarkerMethod with
    | none =>
      have hzero : findMarkerMethod ms = "" := by rw [hEqFind, hf]
      rw [if_pos hzero]
      constructor
      · intro h; exact absurd rfl h
      · rintro ⟨m, hm, hmark⟩
        exact absurd hmark (List.find?_eq_none.mp hf m hm)
    | some m =>
      have hval : findMarkerMethod ms = m.name := by rw [hEqFind, hf]
      have hne : m.name ≠ "" := hnames m (List.mem_of_find?_eq_some hf)
      rw [hval, if_neg hne]
      constructor
      · intro _; exact ⟨m, List.mem_of_find?_eq_some hf, List.find?_some hf⟩
      · intro _; simp
  · intro m hf
    have hval : findMarkerMethod ms = m.name := by rw [hEqFind, hf]
    have hne : m.name ≠ "" := hnames m (List.mem_of_find?_eq_some hf)
    rw [scanUnionInterfaces_singleton, hval, if_neg hne]

/-- Claim C5, counterexample to the claim as stated: an interface declaring
the qualifying methods `isShape` before `isOther` is presented by `go/types`
in Id order, so the program records `isOther` as the discriminator, while
the first qualifying method in declaration order is `isShape`. -/
theorem claim_C5_counterexample :
    scanUnionInterfaces [⟨⟨some "union", "Shape"⟩,
      typesMethodOrder "union" [⟨"isShape", 0, 0⟩, ⟨"isOther", 0, 0⟩]⟩]
      = [(⟨some "union", "Shape"⟩, "isOther")]
    ∧ (List.find? isMarkerMethod
        [⟨"isShape", 0, 0⟩, ⟨"isOther", 0, 0⟩]).map GoMethod.name
      = some "isShape"
    ∧ ("isOther" : String) ≠ "isShape" :=
  ⟨by decide, rfl, by decide⟩

/-- Claim C5 (amended): an abstract type is registered as a sealed contract
iff its method set contains at least one unexported method with zero
parameters and zero results; exactly one discriminator is then recorded,
namely the first qualifying method in the order `go/types` presents the
method set — sorted by unique Id, embedded methods included — which need
not be declaration order. -/
theorem claim_C5 (obj : TypeObj) (pkgPath : String) (methodSet : List GoMethod)
    (hnames : ∀ m ∈ methodSet, m.name ≠ "") :
    (scanUnionInterfaces [⟨obj, typesMethodOrder pkgPath methodSet⟩] ≠ []
      ↔ ∃ m ∈ methodSet, isMarkerMethod m = true)
    ∧ ∀ m, (typesMethodOrder pkgPath methodSet).find? isMarkerMethod = some m →
        scanUnionInterfaces [⟨obj, typesMethodOrder pkgPath methodSet⟩]
          = [(obj, m.name)] := by
  have hperm : (typesMethodOrder pkgPath methodSet).Perm methodSet :=
    List.perm_insertionSort (methodIdLe pkgPath) methodSet
  have hnames2 : ∀ m ∈ typesMethodOrder pkgPath methodSet, m.name ≠ "" :=
    fun m hm => hnames m (hperm.mem_iff.mp hm)
  have hspec := scanSingleton_spec obj (typesMethodOrder pkgPath methodSet) hnames2
  refine ⟨?_, hspec.2⟩
  rw [hspec.1]
  constructor
  · rintro ⟨m, hm, hmark⟩
    exact ⟨m, hperm.mem_iff.mp hm, hmark⟩
  · rintro ⟨m, hm, hmark⟩
    exact ⟨m, hperm.mem_iff.mpr hm, hmark⟩

theorem claim_C5_witness :
    scanUnionInterfaces [⟨⟨some "union", "Shape"⟩,
      typesMethodOrder "union"
        [⟨"Area", 1, 1⟩, ⟨"isShape", 0, 0⟩, ⟨"isOther", 0, 0⟩]⟩]
    = [(⟨some "union", "Shape"⟩, "isOther")] :=
  (claim_C5 ⟨some "union", "Shape"⟩ "union"
    [⟨"Area", 1, 1⟩, ⟨"isShape", 0, 0⟩, ⟨"isOther", 0, 0⟩]
    (by decide)).2 ⟨"isOther", 0, 0⟩ (by decide)

/-- Claim C6: for a concrete (non-interface) type in the contract's module,
the member scan records its plain name when the bare type implements the
discriminator (taking precedence over the pointer form), records the
pointer-qualified name when only the pointer form implements it, and
records nothing when neither form does. -/
theorem claim_C6 (pass : Pass) (markerMethod name : String) (t : GoType)
    (hmem : (name, ScopeEntry.typeName t) ∈ pass.scope)
    (hnotIface : isInterfaceUnderlying t = false) :
    (hasMarkerMethod pass t markerMethod = true →
      recordEntry pass markerMethod (name, ScopeEntry.typeName t) = some name
      ∧ name ∈ findUnionMembers pass markerMethod)
    ∧ (hasMarkerMethod pass t markerMethod = false →
      hasMarkerMethod pass (GoType.pointer t) markerMethod = true →
      recordEntry pass markerMethod (name, ScopeEntry.typeName t)
        = some ("*" ++ name)
      ∧ ("*" ++ name) ∈ findUnionMembers pass markerMethod)
    ∧ (hasMarkerMethod pass t markerMethod = false →
      hasMarkerMethod pass (GoType.pointer t) markerMethod = false →
      recordEntry pass markerMethod (name, ScopeEntry.typeName t) = none) := by
  have hmemSort : ∀ s, s ∈ pass.scope.filterMap (recordEntry pass markerMethod) →
      s ∈ findUnionMembers pass markerMethod := by
    intro s hs
    rw [findUnionMembers_eq]
    unfold sortStrings
    exact (List.perm_insertionSort goStrLe _).mem_iff.mpr hs
  refine ⟨?_, ?_, ?_⟩
  · intro h1
    have hrec : recordEntry pass markerMethod (name, ScopeEntry.typeName t)
        = some name := by
      simp [recordEntry, hnotIface, h1]
    exact ⟨hrec, hmemSort name (List.mem_filterMap.mpr ⟨_, hmem, hrec⟩)⟩
  · intro h1 h2
    have hrec : recordEntry pass markerMethod (name, ScopeEntry.typeName t)
        = some ("*" ++ name) := by
      simp [recordEntry, hnotIface, h1, h2]
    exact ⟨hrec, hmemSort _ (List.mem_filterMap.mpr ⟨_, hmem, hrec⟩)⟩
  · intro h1 h2
    simp [recordEntry, hnotIface, h1, h2]


theorem claim_C6_witness :
    recordEntry scopePass "isShape" ("Circle", ScopeEntry.typeName circleTy)
      = some "*Circle"
    ∧ "*Circle" ∈ findUnionMembers scopePass "isShape" :=
  (claim_C6 scopePass "isShape" "Circle" circleTy (by decide) (by decide)).2.1
    (by decide) (by decide)

/-- Claim C7: the member list of every exported fact is sorted by the Go
string order (pointer marker included in the key, since the `*` is part of
the stored identifier) and has no duplicates. The hypotheses are scope
invariants of `go/types`: scope names are distinct identifiers and contain
no `*`. Determinism is immediate since `findUnionMembers` is a pure
function of the pass. -/
theorem claim_C7 (pass : Pass) (markerMethod : String)
    (hnodup : (pass.scope.map Prod.fst).Nodup)
    (hstar : ∀ p ∈ pass.scope, '*' ∉ p.1.data) :
    (findUnionMembers pass markerMethod).Sorted goStrLe
    ∧ (findUnionMembers pass markerMethod).Nodup := by
  constructor
  · rw [findUnionMembers_eq]
    exact List.sorted_insertionSort goStrLe _
  · rw [findUnionMembers_eq]
    unfold sortStrings
    exact ((List.perm_insertionSort goStrLe _).nodup_iff).mpr
      (filterMap_recordEntry_nodup pass markerMethod pass.scope hnodup hstar)

theorem claim_C7_witness :
    (findUnionMembers scopePass "isShape").Sorted goStrLe
    ∧ (findUnionMembers scopePass "isShape").Nodup :=
  claim_C7 scopePass "isShape" (by decide) (by decide)

/-- Claim C1: for a dispatch site on a sealed contract with no default arm,
a diagnostic is emitted iff `V − H` is non-empty, and the reported missing
set equals `V − H` (the fact's members not in the handled set), sorted,
deduplicated, and module-qualified. Sortedness and uniqueness of the
difference follow from the fact invariant on `fact.Members` established by
phase 1. -/
theorem claim_C1 (pass : Pass) (st : TypeSwitchStmt) (switchType : GoType)
    (obj : TypeObj) (fact : UnionInterface)
    (hty : getSwitchType pass st = some switchType)
    (hni : extractNamedInterface switchType = some obj)
    (hfact : pass.facts obj = some fact)
    (hdef : hasDefaultCase st = false)
    (hsorted : fact.Members.Sorted goStrLe)
    (hnodup : fact.Members.Nodup) :
    ((processTypeSwitch pass st).isSome ↔
      (fact.Members.filter
        (fun m => !(collectCaseTypes pass st).contains m)) ≠ [])
    ∧ processTypeSwitch pass st
      = (if (fact.Members.filter
              (fun m => !(collectCaseTypes pass st).contains m)) = [] then none
         else some (missingCasesMessage obj.name
           ((fact.Members.filter
              (fun m => !(collectCaseTypes pass st).contains m)).map
                (qualifyMember obj.pkg))))
    ∧ findMissingTypes fact.Members (collectCaseTypes pass st) obj.pkg
      = (fact.Members.filter
          (fun m => !(collectCaseTypes pass st).contains m)).map
            (qualifyMember obj.pkg)
    ∧ (fact.Members.filter
        (fun m => !(collectCaseTypes pass st).contains m)).Sorted goStrLe
    ∧ (fact.Members.filter
        (fun m => !(collectCaseTypes pass st).contains m)).Nodup := by
  have hskip : (hasDefaultCase st && !defaultCaseOnlyPanics st
      && !defaultCaseOnlyReturnsError pass st) = false := by
    rw [hdef]
    rfl
  have hcheck := processTypeSwitch_check pass st switchType obj fact
    hty hni hfact hskip
  refine ⟨?_, hcheck, findMissingTypes_eq _ _ _,
    List.Pairwise.filter _ hsorted, List.Nodup.filter _ hnodup⟩
  rw [hcheck]
  by_cases hdiff : (fact.Members.filter
      (fun m => !(collectCaseTypes pass st).contains m)) = []
  · simp [hdiff]
  · simp [hdiff]

theorem claim_C1_witness :
    processTypeSwitch resultPass switchNoDefault
      = (if (resultFact.Members.filter
              (fun m => !(collectCaseTypes resultPass switchNoDefault).contains m))
            = [] then none
         else some (missingCasesMessage resultObj.name
           ((resultFact.Members.filter
              (fun m => !(collectCaseTypes resultPass switchNoDefault).contains m)).map
                (qualifyMember resultObj.pkg)))) :=
  (claim_C1 resultPass switchNoDefault resultTy resultObj resultFact
    rfl rfl (by decide) (by decide) (by decide) (by decide)).2.1

/-- Claim C2: a dispatch site on a sealed contract whose default arm is a
safety guard — the source classifies it so when `defaultCaseOnlyPanics` or
`defaultCaseOnlyReturnsError` holds, i.e. the arm's last statement is a
`panic` call or a return with a non-literal-nil error-capable result —
emits exactly the missing set `V − H`, module-qualified, and emits nothing
when the difference is empty. -/
theorem claim_C2 (pass : Pass) (st : TypeSwitchStmt) (switchType : GoType)
    (obj : TypeObj) (fact : UnionInterface)
    (hty : getSwitchType pass st = some switchType)
    (hni : extractNamedInterface switchType = some obj)
    (hfact : pass.facts obj = some fact)
    (hdef : hasDefaultCase st = true)
    (hguard : defaultCaseOnlyPanics st = true
      ∨ defaultCaseOnlyReturnsError pass st = true) :
    processTypeSwitch pass st
      = (if (fact.Members.filter
              (fun m => !(collectCaseTypes pass st).contains m)) = [] then none
         else some (missingCasesMessage obj.name
           ((fact.Members.filter
              (fun m => !(collectCaseTypes pass st).contains m)).map
                (qualifyMember obj.pkg))))
    ∧ ((fact.Members.filter
        (fun m => !(collectCaseTypes pass st).contains m)) = [] →
      processTypeSwitch pass st = none) := by
  have hskip : (hasDefaultCase st && !defaultCaseOnlyPanics st
      && !defaultCaseOnlyReturnsError pass st) = false := by
    rcases hguard with h | h
    · simp [h]
    · simp [h]
  have hcheck := processTypeSwitch_check pass st switchType obj fact
    hty hni hfact hskip
  refine ⟨hcheck, fun hdiff => ?_⟩
  rw [hcheck, if_pos hdiff]

theorem claim_C2_witness :
    processTypeSwitch resultPass switchPanicDefault
      = (if (resultFact.Members.filter
              (fun m => !(collectCaseTypes resultPass switchPanicDefault).contains m))
            = [] then none
         else some (missingCasesMessage resultObj.name
           ((resultFact.Members.filter
              (fun m => !(collectCaseTypes resultPass switchPanicDefault).contains m)).map
                (qualifyMember resultObj.pkg)))) :=
  (claim_C2 resultPass switchPanicDefault resultTy resultObj resultFact
    rfl rfl (by decide) (by decide) (Or.inl (by decide))).1

/-- Claim C3: a dispatch site on a sealed contract whose default arm is
intentional — its final statement is neither a panic call nor an
error-returning return — emits no diagnostic even when variants are
unhandled; a default arm with an empty body is likewise never reported. -/
theorem claim_C3 (pass : Pass) (st : TypeSwitchStmt) (switchType : GoType)
    (obj : TypeObj) (fact : UnionInterface)
    (hty : getSwitchType pass st = some switchType)
    (hni : extractNamedInterface switchType = some obj)
    (hfact : pass.facts obj = some fact)
    (hdef : hasDefaultCase st = true) :
    (defaultCaseOnlyPanics st = false →
      defaultCaseOnlyReturnsError pass st = false →
      processTypeSwitch pass st = none)
    ∧ (∀ cc, getDefaultCaseClause st = some cc → cc.body = [] →
      processTypeSwitch pass st = none) := by
  constructor
  · intro hp he
    exact processTypeSwitch_skip pass st hdef hp he
  · intro cc hcc hbody
    have hlast : getDefaultCaseLastStmt st = none := by
      unfold getDefaultCaseLastStmt
      rw [hcc]
      show cc.body.getLast? = none
      rw [hbody]
      rfl
    have hp : defaultCaseOnlyPanics st = false := by
      unfold defaultCaseOnlyPanics
      rw [hlast]
    have he : defaultCaseOnlyReturnsError pass st = false := by
      unfold defaultCaseOnlyReturnsError
      rw [hlast]
    exact processTypeSwitch_skip pass st hdef hp he

theorem claim_C3_witness :
    processTypeSwitch resultPass switchNilDefault = none :=
  (claim_C3 resultPass switchNilDefault resultTy resultObj resultFact
    rfl rfl (by decide) (by decide)).1 (by decide) (by decide)

/-- Claim C4: the default-arm classification depends only on the arm's
final statement: two dispatch sites whose default arms have the same final
statement receive the same panic verdict and, for every pass, the same
error-return verdict, regardless of preceding statements. -/
theorem claim_C4 (st1 st2 : TypeSwitchStmt)
    (h : getDefaultCaseLastStmt st1 = getDefaultCaseLastStmt st2) :
    defaultCaseOnlyPanics st1 = defaultCaseOnlyPanics st2
    ∧ ∀ pass, defaultCaseOnlyReturnsError pass st1
        = defaultCaseOnlyReturnsError pass st2 := by
  constructor
  · unfold defaultCaseOnlyPanics
    rw [h]
  · intro pass
    unfold defaultCaseOnlyReturnsError
    rw [h]

theorem claim_C4_witness :
    getDefaultCaseLastStmt switchLogThenPanicDefault
      = getDefaultCaseLastStmt switchPanicOnlyDefault
    ∧ (defaultCaseOnlyPanics switchLogThenPanicDefault
        = defaultCaseOnlyPanics switchPanicOnlyDefault
      ∧ ∀ pass, defaultCaseOnlyReturnsError pass switchLogThenPanicDefault
          = defaultCaseOnlyReturnsError pass switchPanicOnlyDefault) :=
  ⟨rfl, claim_C4 switchLogThenPanicDefault switchPanicOnlyDefault rfl⟩

/-- Claim C8: every emitted diagnostic message has exactly the shape
`missing cases in type switch on <ContractShortName>: <Module>.<V1>, <Module>.<V2>, …`
— entries comma-space separated, in the fact's member order, each prefixed
with the contract's declaring package's short name — and on the fixture's
`Result` contract with only `*Success` handled the message is exactly
`missing cases in type switch on Result: union.*Error`. -/
theorem claim_C8 :
    (∀ pass st msg, processTypeSwitch pass st = some msg →
      ∃ switchType obj fact,
        getSwitchType pass st = some switchType
        ∧ extractNamedInterface switchType = some obj
        ∧ pass.facts obj = some fact
        ∧ (fact.Members.filter
            (fun m => !(collectCaseTypes pass st).contains m)) ≠ []
        ∧ msg = "missing cases in type switch on " ++ obj.name ++ ": "
            ++ String.intercalate ", "
              ((fact.Members.filter
                (fun m => !(collectCaseTypes pass st).contains m)).map
                  (qualifyMember obj.pkg)))
    ∧ processTypeSwitch resultPass switchNoDefault
        = some "missing cases in type switch on Result: union.*Error" := by
  constructor
  · intro pass st msg hmsg
    cases hty : getSwitchType pass st with
    | none =>
      have hnone : processTypeSwitch pass st = none := by
        unfold processTypeSwitch
        rw [hty]
      rw [hnone] at hmsg
      cases hmsg
    | some switchType =>
      cases hni : extractNamedInterface switchType with
      | none =>
        have hnone : processTypeSwitch pass st = none := by
          unfold processTypeSwitch
          rw [hty]
          simp [hni]
        rw [hnone] at hmsg
        cases hmsg
      | some obj =>
        cases hfact : pass.facts obj with
        | none =>
          have hnone : processTypeSwitch pass st = none := by
            unfold processTypeSwitch
            rw [hty]
            simp [hni, hfact]
          rw [hnone] at hmsg
          cases hmsg
        | some fact =>
          cases hC : (hasDefaultCase st && !defaultCaseOnlyPanics st
              && !defaultCaseOnlyReturnsError pass st) with
          | true =>
            have hnone : processTypeSwitch pass st = none := by
              unfold processTypeSwitch
              rw [hty]
              simp [hni, hfact, hC]
            rw [hnone] at hmsg
            cases hmsg
          | false =>
            have heq := processTypeSwitch_check pass st switchType obj fact
              hty hni hfact hC
            rw [heq] at hmsg
            by_cases hdiff : (fact.Members.filter
                (fun m => !(collectCaseTypes pass st).contains m)) = []
            · rw [if_pos hdiff] at hmsg
              cases hmsg
            · rw [if_neg hdiff] at hmsg
              refine ⟨switchType, obj, fact, rfl, hni, hfact, hdiff, ?_⟩
              rw [← Option.some.inj hmsg]
              rfl
  · rfl

theorem claim_C8_witness :
    ∃ switchType obj fact,
      getSwitchType resultPass switchNoDefault = some switchType
      ∧ extractNamedInterface switchType = some obj
      ∧ resultPass.facts obj = some fact
      ∧ (fact.Members.filter
          (fun m => !(collectCaseTypes resultPass switchNoDefault).contains m)) ≠ []
      ∧ "missing cases in type switch on Result: union.*Error"
          = "missing cases in type switch on " ++ obj.name ++ ": "
            ++ String.intercalate ", "
              ((fact.Members.filter
                (fun m => !(collectCaseTypes resultPass switchNoDefault).contains m)).map
                  (qualifyMember obj.pkg)) :=
  claim_C8.1 resultPass switchNoDefault
    "missing cases in type switch on Result: union.*Error" claim_C8.2

/-- Claim C9: handled-set membership is decided on package-unqualified
formatted names: `formatTypeForComparison` prints a named type (or pointer
to one) without its package, any case arm whose resolved type formats this
way lands in the handled set, and a member equal to such a formatted name
is never reported missing — even when the arm's type lives in a package
other than the contract's. -/
theorem claim_C9 :
    (∀ (p1 p2 : Option String) (n : String) (b1 b2 : Bool),
      formatTypeForComparison (GoType.named ⟨p1, n⟩ b1)
        = formatTypeForComparison (GoType.named ⟨p2, n⟩ b2)
      ∧ formatTypeForComparison (GoType.named ⟨p1, n⟩ b1) = n
      ∧ formatTypeForComparison (GoType.pointer (GoType.named ⟨p1, n⟩ b1))
          = "*" ++ n)
    ∧ (∀ pass st clause exprs e t,
      clause ∈ st.body → clause.list = some exprs → e ∈ exprs →
      pass.typeOf e = some t →
      formatTypeForComparison t ∈ collectCaseTypes pass st)
    ∧ (∀ (members handled : List String) (pkg : Option String) (m : String),
      m ∈ handled →
      qualifyMember pkg m ∉ findMissingTypes members handled pkg) := by
  refine ⟨fun p1 p2 n b1 b2 => ⟨rfl, rfl, rfl⟩, ?_, ?_⟩
  · intro pass st clause exprs e t hc hl he ht
    rw [collectCaseTypes_eq]
    apply List.mem_flatten.mpr
    refine ⟨clauseCaseTypes pass clause, List.mem_map_of_mem _ hc, ?_⟩
    unfold clauseCaseTypes
    rw [hl]
    exact List.mem_filterMap.mpr ⟨e, he, by rw [ht]; rfl⟩
  · intro members handled pkg m hm hmem
    rw [findMissingTypes_eq] at hmem
    rcases List.mem_map.mp hmem with ⟨m2, hm2, hq⟩
    have hm2m : m2 = m := qualifyMember_inj pkg m2 m hq
    subst hm2m
    have hf := (List.mem_filter.mp hm2).2
    have hcontains : handled.contains m2 = true := by simpa using hm
    rw [hcontains] at hf
    cases hf

theorem claim_C9_witness :
    formatTypeForComparison (GoType.named ⟨some "other", "Success"⟩ false)
      = "Success"
    ∧ qualifyMember (some "union") "*Error"
        ∉ findMissingTypes ["*Error", "*Success"] ["*Error"] (some "union") :=
  ⟨(claim_C9.1 (some "other") (some "union") "Success" false false).2.1,
   claim_C9.2.2 ["*Error", "*Success"] ["*Error"] (some "union") "*Error"
     (by decide)⟩

/-- Claim C10: a default arm whose final statement is a naked return (no
result expressions) is always classified intentional — neither classifier
accepts it, whatever the pass supplies about the enclosing function's
(possibly named, error-typed) results — so the site emits no diagnostic. -/
theorem claim_C10 (pass : Pass) (st : TypeSwitchStmt) (switchType : GoType)
    (obj : TypeObj) (fact : UnionInterface)
    (hty : getSwitchType pass st = some switchType)
    (hni : extractNamedInterface switchType = some obj)
    (hfact : pass.facts obj = some fact)
    (hdef : hasDefaultCase st = true)
    (hlast : getDefaultCaseLastStmt st = some (GoStmt.returnStmt [])) :
    defaultCaseOnlyPanics st = false
    ∧ defaultCaseOnlyReturnsError pass st = false
    ∧ processTypeSwitch pass st = none := by
  have hp : defaultCaseOnlyPanics st = false := by
    unfold defaultCaseOnlyPanics
    rw [hlast]
  have he : defaultCaseOnlyReturnsError pass st = false := by
    unfold defaultCaseOnlyReturnsError
    rw [hlast]
    rfl
  exact ⟨hp, he, processTypeSwitch_skip pass st hdef hp he⟩

theorem claim_C10_witness :
    defaultCaseOnlyPanics switchNakedReturnDefault = false
    ∧ defaultCaseOnlyReturnsError resultPass switchNakedReturnDefault = false
    ∧ processTypeSwitch resultPass switchNakedReturnDefault = none :=
  claim_C10 resultPass switchNakedReturnDefault resultTy resultObj resultFact
    rfl rfl (by decide) (by decide) rfl
